import Mathlib

/-!
Verification development for `parlai/agents/transformer/modules/generator.py`:
a shallow embedding of `TransformerGeneratorModel` — its construction wiring
(`__init__`, `build_encoder`, `build_decoder`, the `Manifest` dataclass and the
module-level default `ComponentSpec`s), its output projection (`output`), and its
beam-search reordering helpers (`reorder_encoder_states`,
`reorder_decoder_incremental_state`).

Tensors are modelled as nested lists of rationals; the `neginf` sentinel written
into the start-token column is modelled as `⊥ : WithBot ℚ`.  Python `dict`s keyed
by layer index are modelled as association lists; operations that raise
(`KeyError`, `IndexError`, out-of-range `torch.index_select`) return `none`.
External collaborators that this file only calls (`TransformerEncoder`,
`TransformerDecoder`, `create_embeddings`, the `TorchGeneratorModel` superclass)
are abstracted as parameters bundled in `Externals`; what the embedding records
about them is exactly the calls the source makes.
-/

namespace ParlAIGen

/-- A 1-d float tensor (a row of values). -/
abbrev Vec := List ℚ

/-- A 2-d float tensor: a list of rows.  `F.linear`'s weight has shape
(vocabulary, embedding_size). -/
abbrev Mat := List Vec

/-- A 3-d float tensor (batch × time × feature). -/
abbrev T3 := List Mat

/-- A 3-d tensor whose entries may be the `neginf` sentinel (`⊥`). -/
abbrev TW3 := List (List (List (WithBot ℚ)))

/-- Dot product of two rows, as computed by the tensor library. -/
def dot (x y : Vec) : ℚ :=
  ((x.zip y).map (fun p => p.1 * p.2)).sum

/-- `F.linear(tensor, W)`: for a 3-d `tensor` (b × t × e) and weight `W`
(v × e), the result is (b × t × v) with entry `[i][j][k] = tensor[i][j] ⬝ W[k]`. -/
def Flinear (tensor : T3) (W : Mat) : T3 :=
  tensor.map (fun m => m.map (fun row => W.map (fun w => dot row w)))

/-- Injection of a plain float tensor into the sentinel-carrying type. -/
def toW3 (t : T3) : TW3 :=
  t.map (fun m => m.map (fun row => row.map (fun q : ℚ => (q : WithBot ℚ))))

/-- The in-place slice assignment `output[:, :, s] = neginf(output.dtype)`:
every innermost row gets position `s` overwritten with `⊥`. -/
def maskStart (o : TW3) (s : Nat) : TW3 :=
  o.map (fun m => m.map (fun row => row.set s ⊥))

/-- Entry `o[i][j][k]` of a 3-d tensor, `none` when out of range. -/
def entry? (o : TW3) (i j k : Nat) : Option (WithBot ℚ) :=
  (o.get? i).bind (fun m => (m.get? j).bind (fun row => row.get? k))

/-- `TransformerGeneratorModel.output` as a function of the weight matrix and
the start index: project back to the vocabulary with `F.linear(tensor, W)`,
then force the start token's column to `neginf`.  The indexing
`output[:, :, start_idx]` raises `IndexError` when `start_idx` is not a valid
index of the vocabulary dimension (whose size is `W.length`); that failure is
`none`. -/
def outputF (W : Mat) (start_idx : Nat) (tensor : T3) : Option TW3 :=
  if start_idx < W.length then
    some (maskStart (toW3 (Flinear tensor W)) start_idx)
  else none

/-- The `indices` argument of `reorder_encoder_states`: either already a tensor,
or a plain list that the method converts with `torch.LongTensor(...)`. -/
inductive IndicesArg where
  | tensor (vals : List Nat)
  | plain (vals : List Nat)
deriving DecidableEq

/-- The index values after the `torch.is_tensor` branch: a tensor is used as is,
a plain list is converted to a `LongTensor` holding the same values. -/
def IndicesArg.asTensor : IndicesArg → List Nat
  | .tensor v => v
  | .plain v => v

/-- `torch.index_select(t, 0, indices)`: a fresh tensor whose row `k` is row
`indices[k]` of `t`; an out-of-range index is an error (`none`). -/
def index_select0 {α : Type} (t : List α) : List Nat → Option (List α)
  | [] => some []
  | i :: rest =>
    match t.get? i with
    | none => none
    | some a => (index_select0 t rest).map (fun l => a :: l)

/-- `TransformerGeneratorModel.reorder_encoder_states`: unpack
`enc, mask = encoder_states`, convert a non-tensor `indices` to a tensor, and
`index_select` both `enc` and `mask` along dimension 0. -/
def reorder_encoder_states {α β : Type} (enc : List α) (mask : List β)
    (indices : IndicesArg) : Option (List α × List β) :=
  let inds := indices.asTensor
  match index_select0 enc inds with
  | none => none
  | some enc2 =>
    match index_select0 mask inds with
    | none => none
    | some mask2 => some (enc2, mask2)

/-- A decoder layer, abstracted to the one method this file calls on it. -/
structure DecoderLayer (S I : Type) where
  reorder_incremental_state : S → I → S

/-- The dict comprehension
`{idx: layer.reorder_incremental_state(incremental_state[idx], inds)
   for idx, layer in enumerate(self.decoder.layers)}`
unrolled from index `n`: a missing key is a `KeyError` (`none`). -/
def reorderIncrGo {S I : Type} (incremental_state : List (Nat × S)) (inds : I) :
    Nat → List (DecoderLayer S I) → Option (List (Nat × S))
  | _, [] => some []
  | n, layer :: rest =>
    match incremental_state.lookup n with
    | none => none
    | some s =>
      (reorderIncrGo incremental_state inds (n + 1) rest).map
        (fun d => (n, layer.reorder_incremental_state s inds) :: d)

/-- `TransformerGeneratorModel.reorder_decoder_incremental_state`: build a fresh
dict keyed by the indices of `enumerate(self.decoder.layers)`, delegating each
entry to that layer's own `reorder_incremental_state`. -/
def reorder_decoder_incremental_state {S I : Type}
    (layers : List (DecoderLayer S I)) (incremental_state : List (Nat × S))
    (inds : I) : Option (List (Nat × S)) :=
  reorderIncrGo incremental_state inds 0 layers

/-- The option dict; the only key this file reads is `opt['embedding_size']`. -/
structure Opt where
  embedding_size : Nat
deriving DecidableEq

/-- The `DictionaryAgent` collaborator, abstracted to what this file uses:
token-to-index lookup (`dictionary[token]`), the three special token strings,
and `len(dictionary)`. -/
structure DictionaryAgent where
  tok2ind : String → Nat
  null_token : String
  start_token : String
  end_token : String
  len : Nat

/-- The `nn.Embedding` module returned by `create_embeddings`, abstracted to its
`weight` matrix (read by `output`) and its identity as a shared object. -/
structure Embeddings where
  weight : Mat
deriving DecidableEq

/-- The full keyword-argument record of a component-class call.  `build_encoder`
passes every field; `build_decoder` passes only `opt`, `embedding` and
`manifest`, so the fields it does not pass are `none` at the outer level.
Inner `Option`s are Python `None` values. -/
structure BuildArgs (M : Type) where
  opt : Opt
  embedding : Option Embeddings
  vocabulary_size : Option Nat
  padding_idx : Option (Option Nat)
  reduction_type : Option (Option String)
  manifest : M

/-- `ComponentSpec`: a component class together with the manifest to construct
it with.  The class is modelled as a function from its call arguments to the
constructed component. -/
structure ComponentSpec (M Comp : Type) where
  klass : BuildArgs M → Comp
  manifest : M

/-- The external collaborators the generator module imports but does not
define: the two component classes, their default manifests, and
`create_embeddings`. -/
structure Externals (M Comp : Type) where
  transformerEncoder : BuildArgs M → Comp
  transformerDecoder : BuildArgs M → Comp
  transformerEncoderManifest : M
  transformerDecoderManifest : M
  create_embeddings : DictionaryAgent → Nat → Nat → Embeddings

/-- `ENCODER_DEFAULT_SPEC = ComponentSpec(TransformerEncoder,
TransformerEncoder.Manifest())`. -/
def ENCODER_DEFAULT_SPEC {M Comp : Type} (ext : Externals M Comp) :
    ComponentSpec M Comp :=
  ⟨ext.transformerEncoder, ext.transformerEncoderManifest⟩

/-- `DECODER_DEFAULT_SPEC = ComponentSpec(TransformerDecoder,
TransformerDecoder.Manifest())`. -/
def DECODER_DEFAULT_SPEC {M Comp : Type} (ext : Externals M Comp) :
    ComponentSpec M Comp :=
  ⟨ext.transformerDecoder, ext.transformerDecoderManifest⟩

/-- `TransformerGeneratorModel.Manifest`: a dataclass holding the encoder and
decoder specs, defaulting to the module-level default specs. -/
structure TGMManifest (M Comp : Type) where
  encoder : ComponentSpec M Comp
  decoder : ComponentSpec M Comp

/-- `TransformerGeneratorModel.Manifest()` with both fields defaulted. -/
def TGMManifest.default {M Comp : Type} (ext : Externals M Comp) :
    TGMManifest M Comp :=
  ⟨ENCODER_DEFAULT_SPEC ext, DECODER_DEFAULT_SPEC ext⟩

/-- `TransformerGeneratorModel.build_encoder`: call `spec.klass` with all six
keyword arguments, `vocabulary_size` being `len(dictionary)` and `manifest`
being `spec.manifest`. -/
def build_encoder {M Comp : Type} (opt : Opt) (dictionary : DictionaryAgent)
    (embedding : Option Embeddings) (padding_idx : Option Nat)
    (reduction_type : Option String) (spec : ComponentSpec M Comp) : Comp :=
  spec.klass
    { opt := opt
      embedding := embedding
      vocabulary_size := some dictionary.len
      padding_idx := some padding_idx
      reduction_type := some reduction_type
      manifest := spec.manifest }

/-- `TransformerGeneratorModel.build_decoder` with an explicit `spec`: call
`spec.klass` with only `opt`, `embedding` and `manifest`. -/
def build_decoder {M Comp : Type} (opt : Opt) (embedding : Option Embeddings)
    (spec : ComponentSpec M Comp) : Comp :=
  spec.klass
    { opt := opt
      embedding := embedding
      vocabulary_size := none
      padding_idx := none
      reduction_type := none
      manifest := spec.manifest }

/-- `build_decoder` called without an explicit `spec` argument: the signature's
default is `ENCODER_DEFAULT_SPEC`. -/
def build_decoder_noSpec {M Comp : Type} (ext : Externals M Comp) (opt : Opt)
    (embedding : Option Embeddings) : Comp :=
  build_decoder opt embedding (ENCODER_DEFAULT_SPEC ext)

/-- The constructed `TransformerGeneratorModel` object: the attributes set by
`__init__`, plus a record of the positional arguments passed to the
`TorchGeneratorModel` superclass constructor. -/
structure TransformerGeneratorModel (M Comp : Type) where
  super_args : Nat × Nat × Nat
  pad_idx : Nat
  start_idx : Nat
  end_idx : Nat
  opt : Opt
  embeddings : Embeddings
  encoder : Comp
  decoder : Comp

namespace TransformerGeneratorModel

/-- `TransformerGeneratorModel.__init__`: derive the three special indices from
the dictionary, pass them to the superclass constructor, default the manifest
(`manifest = manifest or self.Manifest()`), create the embeddings with
`opt['embedding_size']` and `self.pad_idx`, and build the encoder and decoder
from the manifest's specs, handing the same embeddings object to both. -/
def mkInit {M Comp : Type} (ext : Externals M Comp) (opt : Opt)
    (dictionary : DictionaryAgent) (manifest : Option (TGMManifest M Comp)) :
    TransformerGeneratorModel M Comp :=
  let pad_idx := dictionary.tok2ind dictionary.null_token
  let start_idx := dictionary.tok2ind dictionary.start_token
  let end_idx := dictionary.tok2ind dictionary.end_token
  let mf := manifest.getD (TGMManifest.default ext)
  let embeddings := ext.create_embeddings dictionary opt.embedding_size pad_idx
  let encoder :=
    build_encoder opt dictionary (some embeddings) (some pad_idx) none
      mf.encoder
  let decoder := build_decoder opt (some embeddings) mf.decoder
  { super_args := (pad_idx, start_idx, end_idx)
    pad_idx := pad_idx
    start_idx := start_idx
    end_idx := end_idx
    opt := opt
    embeddings := embeddings
    encoder := encoder
    decoder := decoder }

/-- `TransformerGeneratorModel.output` as a method: project with the weight of
`self.embeddings` and mask the column `self.start_idx`. -/
def output {M Comp : Type} (m : TransformerGeneratorModel M Comp)
    (tensor : T3) : Option TW3 :=
  outputF m.embeddings.weight m.start_idx tensor

end TransformerGeneratorModel

/-! ### A store model for the in-place effects

To state the frame property (arguments are not mutated) we also give the two
tensor-returning methods a second, allocation-aware translation: tensors live
in a store of objects addressed by references, `F.linear` and
`torch.index_select` allocate fresh objects, and the slice assignment in
`output` is a read-modify-write on the freshly allocated object. -/

/-- A store of objects; a reference is an index into `mem`, allocation
appends. -/
structure Store (α : Type) where
  mem : List α

/-- Allocate a fresh object, returning the new store and the fresh reference. -/
def Store.alloc {α : Type} (st : Store α) (v : α) : Store α × Nat :=
  (⟨st.mem ++ [v]⟩, st.mem.length)

/-- Dereference. -/
def Store.read {α : Type} (st : Store α) (r : Nat) : Option α :=
  st.mem.get? r

/-- Overwrite the object at `r` in place. -/
def Store.write {α : Type} (st : Store α) (r : Nat) (v : α) : Store α :=
  ⟨st.mem.set r v⟩

/-- A tensor object as stored: either a plain float tensor or one that may
carry the `neginf` sentinel. -/
inductive TensorObj where
  | q (t : T3)
  | w (t : TW3)

/-- `output` against the store: read the argument tensor, allocate the fresh
`F.linear` result, then mutate that fresh object in place with the start-column
assignment (an `IndexError` when `start_idx` is out of the vocabulary range). -/
def output_st (st : Store TensorObj) (W : Mat) (start_idx : Nat)
    (tensorRef : Nat) : Option (Store TensorObj × Nat) :=
  match st.read tensorRef with
  | some (.q t) =>
    let p := st.alloc (.w (toW3 (Flinear t W)))
    match p.1.read p.2 with
    | some (.w o) =>
      if start_idx < W.length then
        some (p.1.write p.2 (.w (maskStart o start_idx)), p.2)
      else none
    | _ => none
  | _ => none

/-- `torch.index_select(·, 0, inds)` against a store of list-like tensors: read
the source and allocate the freshly selected tensor. -/
def index_select0_st {ρ : Type} (st : Store (List ρ)) (tRef : Nat)
    (inds : List Nat) : Option (Store (List ρ) × Nat) :=
  match st.read tRef with
  | none => none
  | some t =>
    match index_select0 t inds with
    | none => none
    | some sel => some (st.alloc sel)

/-- `reorder_encoder_states` against the store: two `index_select`s, each
allocating a fresh tensor. -/
def reorder_encoder_states_st {ρ : Type} (st : Store (List ρ))
    (encRef maskRef : Nat) (indices : IndicesArg) :
    Option (Store (List ρ) × Nat × Nat) :=
  let inds := indices.asTensor
  match index_select0_st st encRef inds with
  | none => none
  | some (st1, encRef2) =>
    match index_select0_st st1 maskRef inds with
    | none => none
    | some (st2, maskRef2) => some (st2, encRef2, maskRef2)

/-! ### Helper lemmas -/

/-- Rows produced by the projection-and-mask pipeline: every innermost row of
`maskStart (toW3 (Flinear t W)) s` is `((W.map (dot r)).map coe).set s ⊥` for
the corresponding input row `r`. -/
theorem maskStart_toW3_Flinear_get? (t : T3) (W : Mat) (s : Nat) (i j : Nat)
    (m : List (List (WithBot ℚ))) (row : List (WithBot ℚ))
    (hm : (maskStart (toW3 (Flinear t W)) s).get? i = some m)
    (hrow : m.get? j = some row) :
    ∃ r : Vec, (t.get? i).bind (fun mm => mm.get? j) = some r ∧
      row = ((W.map (fun w => dot r w)).map (fun q : ℚ => (q : WithBot ℚ))).set s ⊥ := by
  unfold maskStart toW3 Flinear at hm
  rw [List.get?_map, Option.map_eq_some'] at hm
  obtain ⟨m1, hm1, rfl⟩ := hm
  rw [List.get?_map, Option.map_eq_some'] at hm1
  obtain ⟨m2, hm2, rfl⟩ := hm1
  rw [List.get?_map, Option.map_eq_some'] at hm2
  obtain ⟨mm, hmm, rfl⟩ := hm2
  rw [List.get?_map, Option.map_eq_some'] at hrow
  obtain ⟨r1, hr1, rfl⟩ := hrow
  rw [List.get?_map, Option.map_eq_some'] at hr1
  obtain ⟨r2, hr2, rfl⟩ := hr1
  rw [List.get?_map, Option.map_eq_some'] at hr2
  obtain ⟨r, hr, rfl⟩ := hr2
  exact ⟨r, by rw [hmm]; exact hr, rfl⟩

/-! ### C1: the start-token column of the output logits is forced to neginf -/

/-- C1: for every weight matrix, every valid start index and every input
tensor, `TransformerGeneratorModel.output` succeeds and in its result the entry
at index `start_idx` of the last (vocabulary) dimension is the `neginf`
sentinel at every batch position `i` and every time position `j`, so the start
token's probability after softmax is zero. -/
theorem output_forces_start_neginf (W : Mat) (start_idx : Nat) (t : T3)
    (hs : start_idx < W.length) :
    ∃ o, outputF W start_idx t = some o ∧
      ∀ i m, o.get? i = some m → ∀ j row, m.get? j = some row →
        row.get? start_idx = some ⊥ := by
  refine ⟨maskStart (toW3 (Flinear t W)) start_idx, by simp [outputF, hs], ?_⟩
  intro i m hm j row hrow
  obtain ⟨r, -, rfl⟩ := maskStart_toW3_Flinear_get? t W start_idx i j m row hm hrow
  have hlen : start_idx <
      ((W.map (fun w => dot r w)).map (fun q : ℚ => (q : WithBot ℚ))).length := by
    rw [List.length_map, List.length_map]; exact hs
  exact List.get?_set_eq_of_lt _ hlen

/-- C1 witness: a concrete 2-word vocabulary, start index 1, and a single
batch/time position. -/
theorem output_forces_start_neginf_witness :
    ∃ o, outputF [[(1 : ℚ), 2], [3, 4]] 1 [[[5, 7]]] = some o ∧
      ∀ i m, o.get? i = some m → ∀ j row, m.get? j = some row →
        row.get? 1 = some ⊥ :=
  output_forces_start_neginf [[(1 : ℚ), 2], [3, 4]] 1 [[[5, 7]]] (by decide)

/-! ### C2: the output projection shares the embedding weight matrix -/

/-- Unmasked entries of `outputF`: away from the start column, entry
`[i][j][k]` of the output is the dot product of input row `[i][j]` with row `k`
of the weight matrix, exactly `F.linear`. -/
theorem outputF_entry (W : Mat) (s : Nat) (t : T3) (o : TW3)
    (ho : outputF W s t = some o) (i j k : Nat) (mm : Mat) (r w : Vec)
    (hmm : t.get? i = some mm) (hr : mm.get? j = some r)
    (hw : W.get? k = some w) (hk : k ≠ s) :
    entry? o i j k = some ((dot r w : ℚ) : WithBot ℚ) := by
  have ho' : o = maskStart (toW3 (Flinear t W)) s := by
    unfold outputF at ho
    split at ho
    · exact (Option.some.inj ho).symm
    · cases ho
  subst ho'
  unfold entry? maskStart toW3 Flinear
  simp only [List.get?_map, hmm, hr, Option.map_some', Option.some_bind]
  rw [List.get?_set_ne _ _ (Ne.symm hk), List.get?_map, List.get?_map, hw]
  rfl

/-- C2: for every constructed model, `output` projects with the weight of the
single `self.embeddings` module — entrywise it is `F.linear(tensor, W)` with
`W = self.embeddings.weight` away from the masked start column — and that very
same embeddings object is the `embedding` argument handed to both the encoder
and the decoder class; no other projection matrix enters. -/
theorem output_shares_embedding_weight {M Comp : Type} (ext : Externals M Comp)
    (opt : Opt) (dictionary : DictionaryAgent)
    (manifest : Option (TGMManifest M Comp)) (t : T3) :
    let m := TransformerGeneratorModel.mkInit ext opt dictionary manifest
    let mf := manifest.getD (TGMManifest.default ext)
    m.output t = outputF m.embeddings.weight m.start_idx t ∧
    m.encoder = mf.encoder.klass
      ⟨opt, some m.embeddings, some dictionary.len, some (some m.pad_idx),
        some none, mf.encoder.manifest⟩ ∧
    m.decoder = mf.decoder.klass
      ⟨opt, some m.embeddings, none, none, none, mf.decoder.manifest⟩ ∧
    ∀ o, m.output t = some o → ∀ i mm, t.get? i = some mm →
      ∀ j r, mm.get? j = some r →
        ∀ k w, m.embeddings.weight.get? k = some w → k ≠ m.start_idx →
          entry? o i j k = some ((dot r w : ℚ) : WithBot ℚ) := by
  refine ⟨rfl, rfl, rfl, ?_⟩
  intro o ho i mm hmm j r hr k w hw hk
  exact outputF_entry _ _ _ _ ho i j k mm r w hmm hr hw hk

/-! ### Concrete instantiations used by the witnesses -/

/-- Concrete externals: components are represented by the argument record their
class was called with (`klass` is the identity on `BuildArgs`), manifests are
trivial, and `create_embeddings` returns a 2 × 2 weight remembering the padding
index and the embedding size. -/
def extC : Externals Unit (BuildArgs Unit) :=
  { transformerEncoder := fun a => a
    transformerDecoder := fun a => a
    transformerEncoderManifest := ()
    transformerDecoderManifest := ()
    create_embeddings := fun _ e p => ⟨[[(p : ℚ), (e : ℚ)], [1, 0]]⟩ }

/-- A concrete 4-word dictionary with `__null__ ↦ 0`, `__start__ ↦ 1`,
`__end__ ↦ 2`. -/
def dictC : DictionaryAgent :=
  { tok2ind := fun s =>
      if s = "__null__" then 0
      else if s = "__start__" then 1
      else if s = "__end__" then 2
      else 3
    null_token := "__null__"
    start_token := "__start__"
    end_token := "__end__"
    len := 4 }

/-- A concrete option dict with `embedding_size = 7`. -/
def optC : Opt := ⟨7⟩

/-- Two concrete decoder layers over a `Nat` incremental state: the first adds
the index tensor, the second multiplies by it. -/
def layersC : List (DecoderLayer Nat Nat) :=
  [⟨fun s i => s + i⟩, ⟨fun s i => s * i⟩]

/-- C2 witness: on the concrete model (weight `[[0, 7], [1, 0]]`, start index
1) and input `[[[2, 3]]]`, the unmasked entry `[0][0][0]` of the output is the
dot product `[2, 3] ⬝ [0, 7] = 21`. -/
theorem output_shares_embedding_weight_witness :
    ∃ o, (TransformerGeneratorModel.mkInit extC optC dictC none).output
        [[[2, 3]]] = some o ∧
      entry? o 0 0 0 = some ((21 : ℚ) : WithBot ℚ) := by
  refine ⟨_, rfl, ?_⟩
  have h :=
    (output_shares_embedding_weight extC optC dictC none
      [[[2, 3]]]).2.2.2 _ rfl 0 _ rfl 0 _ rfl 0 _ rfl (by decide)
  rw [h]
  norm_num [dot, dictC, optC]

/-! ### C5: encoder and decoder are built from the manifest's component specs -/

/-- C5: the encoder is `manifest.encoder.klass` applied to the build arguments
carrying `manifest.encoder.manifest`, the decoder is `manifest.decoder.klass`
applied to the arguments carrying `manifest.decoder.manifest`; when `manifest`
is `None`, the defaulted `Manifest()` is used, whose encoder spec is
`ENCODER_DEFAULT_SPEC` (the `TransformerEncoder` class with its default
manifest) and whose decoder spec is `DECODER_DEFAULT_SPEC` (the
`TransformerDecoder` class with its default manifest). -/
theorem manifest_selects_components {M Comp : Type} (ext : Externals M Comp)
    (opt : Opt) (dictionary : DictionaryAgent)
    (manifest : Option (TGMManifest M Comp)) :
    let m := TransformerGeneratorModel.mkInit ext opt dictionary manifest
    let mf := manifest.getD (TGMManifest.default ext)
    m.encoder = mf.encoder.klass
      ⟨opt, some m.embeddings, some dictionary.len, some (some m.pad_idx),
        some none, mf.encoder.manifest⟩ ∧
    m.decoder = mf.decoder.klass
      ⟨opt, some m.embeddings, none, none, none, mf.decoder.manifest⟩ ∧
    TGMManifest.default ext =
      ⟨ENCODER_DEFAULT_SPEC ext, DECODER_DEFAULT_SPEC ext⟩ ∧
    (manifest = none →
      m.encoder = ext.transformerEncoder
        ⟨opt, some m.embeddings, some dictionary.len, some (some m.pad_idx),
          some none, ext.transformerEncoderManifest⟩ ∧
      m.decoder = ext.transformerDecoder
        ⟨opt, some m.embeddings, none, none, none,
          ext.transformerDecoderManifest⟩) := by
  refine ⟨rfl, rfl, rfl, ?_⟩
  rintro rfl
  exact ⟨rfl, rfl⟩

/-- C5 witness: with the concrete externals and `manifest = None`, the encoder
is the `TransformerEncoder` class applied to the default-manifest arguments. -/
theorem manifest_selects_components_witness :
    (TransformerGeneratorModel.mkInit extC optC dictC none).encoder =
      extC.transformerEncoder
        ⟨optC,
          some (TransformerGeneratorModel.mkInit extC optC dictC
            none).embeddings,
          some dictC.len,
          some (some (TransformerGeneratorModel.mkInit extC optC dictC
            none).pad_idx),
          some none, extC.transformerEncoderManifest⟩ :=
  ((manifest_selects_components extC optC dictC none).2.2.2 rfl).1

/-! ### C6: special-token indices come from the dictionary -/

/-- C6: `pad_idx`, `start_idx` and `end_idx` are the dictionary's indices of
its null, start and end tokens; the triple is passed to the superclass
constructor; and `pad_idx` is the padding index handed both to
`create_embeddings` and (inside the encoder's build arguments) to the encoder
class. -/
theorem dictionary_special_indices {M Comp : Type} (ext : Externals M Comp)
    (opt : Opt) (dictionary : DictionaryAgent)
    (manifest : Option (TGMManifest M Comp)) :
    let m := TransformerGeneratorModel.mkInit ext opt dictionary manifest
    m.pad_idx = dictionary.tok2ind dictionary.null_token ∧
    m.start_idx = dictionary.tok2ind dictionary.start_token ∧
    m.end_idx = dictionary.tok2ind dictionary.end_token ∧
    m.super_args = (m.pad_idx, m.start_idx, m.end_idx) ∧
    m.embeddings =
      ext.create_embeddings dictionary opt.embedding_size m.pad_idx ∧
    m.encoder =
      (manifest.getD (TGMManifest.default ext)).encoder.klass
        ⟨opt, some m.embeddings, some dictionary.len, some (some m.pad_idx),
          some none,
          (manifest.getD (TGMManifest.default ext)).encoder.manifest⟩ :=
  ⟨rfl, rfl, rfl, rfl, rfl, rfl⟩

/-! ### C7: `build_decoder`'s signature default is the encoder's spec -/

/-- C7: `build_decoder` called without an explicit `spec` uses
`ENCODER_DEFAULT_SPEC` — the `TransformerEncoder` class with the encoder's
default manifest — not `DECODER_DEFAULT_SPEC`; the decoder default spec only
enters through `Manifest.decoder` when `__init__` builds the model with a
defaulted manifest. -/
theorem build_decoder_defaults_to_encoder_spec {M Comp : Type}
    (ext : Externals M Comp) (opt : Opt) (embedding : Option Embeddings)
    (dictionary : DictionaryAgent) :
    build_decoder_noSpec ext opt embedding =
      build_decoder opt embedding (ENCODER_DEFAULT_SPEC ext) ∧
    build_decoder_noSpec ext opt embedding =
      ext.transformerEncoder
        ⟨opt, embedding, none, none, none, ext.transformerEncoderManifest⟩ ∧
    (TransformerGeneratorModel.mkInit ext opt dictionary none).decoder =
      ext.transformerDecoder
        ⟨opt,
          some (TransformerGeneratorModel.mkInit ext opt dictionary
            none).embeddings,
          none, none, none, ext.transformerDecoderManifest⟩ :=
  ⟨rfl, rfl, rfl⟩

/-! ### C3: encoder states are reordered row-by-row by the index sequence -/

/-- `index_select0` on in-range indices: the selection succeeds, has one row
per index, and its row `k` is row `inds[k]` of the source. -/
theorem index_select0_spec {α : Type} (t : List α) :
    ∀ inds : List Nat, (∀ i ∈ inds, i < t.length) →
      ∃ r, index_select0 t inds = some r ∧ r.length = inds.length ∧
        ∀ k (hk : k < inds.length), r.get? k = t.get? (inds.get ⟨k, hk⟩)
  | [], _ => ⟨[], rfl, rfl, fun k hk => absurd hk (Nat.not_lt_zero k)⟩
  | i :: rest, h => by
    have hi : i < t.length := h i (List.mem_cons_self i rest)
    obtain ⟨a, ha⟩ : ∃ a, t.get? i = some a :=
      ⟨t.get ⟨i, hi⟩, List.get?_eq_some.mpr ⟨hi, rfl⟩⟩
    obtain ⟨r, hr, hlen, hget⟩ :=
      index_select0_spec t rest (fun x hx => h x (List.mem_cons_of_mem i hx))
    refine ⟨a :: r, ?_, by simp [hlen], ?_⟩
    · unfold index_select0
      rw [ha, hr]
      rfl
    · intro k hk
      match k with
      | 0 => simpa using ha.symm
      | Nat.succ k' => exact hget k' (Nat.lt_of_succ_lt_succ hk)

/-- C3: for every encoder-state pair `(enc, mask)` and every in-range index
sequence — given either as a tensor or as a plain list, converted to a tensor
with the same values — `reorder_encoder_states` returns `(enc2, mask2)` with
row `k` of `enc2` equal to row `indices[k]` of `enc` and row `k` of `mask2`
equal to row `indices[k]` of `mask`; the plain-list form behaves exactly as the
tensor form. -/
theorem reorder_encoder_states_spec {α β : Type} (enc : List α) (mask : List β)
    (indices : IndicesArg)
    (henc : ∀ i ∈ indices.asTensor, i < enc.length)
    (hmask : ∀ i ∈ indices.asTensor, i < mask.length) :
    ∃ e2 m2, reorder_encoder_states enc mask indices = some (e2, m2) ∧
      e2.length = indices.asTensor.length ∧
      m2.length = indices.asTensor.length ∧
      (∀ k (hk : k < indices.asTensor.length),
        e2.get? k = enc.get? (indices.asTensor.get ⟨k, hk⟩) ∧
        m2.get? k = mask.get? (indices.asTensor.get ⟨k, hk⟩)) ∧
      reorder_encoder_states enc mask (IndicesArg.plain indices.asTensor) =
        reorder_encoder_states enc mask (IndicesArg.tensor indices.asTensor) := by
  obtain ⟨e2, he, hel, heg⟩ := index_select0_spec enc _ henc
  obtain ⟨m2, hm, hml, hmg⟩ := index_select0_spec mask _ hmask
  refine ⟨e2, m2, ?_, hel, hml, fun k hk => ⟨heg k hk, hmg k hk⟩, rfl⟩
  simp only [reorder_encoder_states, he, hm]

/-- C3 witness: rows `[10, 20]` with mask `[true, false]`, reordered by the
plain-list index sequence `[1, 0, 1]`. -/
theorem reorder_encoder_states_spec_witness :
    ∃ e2 m2,
      reorder_encoder_states [10, 20] [true, false]
        (IndicesArg.plain [1, 0, 1]) = some (e2, m2) ∧
      e2.length = (IndicesArg.plain [1, 0, 1]).asTensor.length ∧
      m2.length = (IndicesArg.plain [1, 0, 1]).asTensor.length ∧
      (∀ k (hk : k < (IndicesArg.plain [1, 0, 1]).asTensor.length),
        e2.get? k =
          [10, 20].get? ((IndicesArg.plain [1, 0, 1]).asTensor.get ⟨k, hk⟩) ∧
        m2.get? k =
          [true, false].get?
            ((IndicesArg.plain [1, 0, 1]).asTensor.get ⟨k, hk⟩)) ∧
      reorder_encoder_states [10, 20] [true, false]
          (IndicesArg.plain (IndicesArg.plain [1, 0, 1]).asTensor) =
        reorder_encoder_states [10, 20] [true, false]
          (IndicesArg.tensor (IndicesArg.plain [1, 0, 1]).asTensor) :=
  reorder_encoder_states_spec [10, 20] [true, false]
    (IndicesArg.plain [1, 0, 1]) (by decide) (by decide)

/-! ### C4 and C8: per-layer delegation and the key set of the reordered
incremental state -/

/-- Unrolling lemma: when every key `n .. n + layers.length - 1` is present,
the comprehension starting at `n` succeeds, its keys are exactly
`range' n layers.length`, and each entry is delegated to the corresponding
layer. -/
theorem reorderIncrGo_spec {S I : Type} (incr : List (Nat × S)) (inds : I) :
    ∀ (layers : List (DecoderLayer S I)) (n : Nat),
      (∀ k, k < layers.length → (incr.lookup (n + k)).isSome) →
      ∃ d, reorderIncrGo incr inds n layers = some d ∧
        d.map Prod.fst = List.range' n layers.length ∧
        ∀ k (hk : k < layers.length) s, incr.lookup (n + k) = some s →
          d.lookup (n + k) =
            some ((layers.get ⟨k, hk⟩).reorder_incremental_state s inds)
  | [], n, _ => ⟨[], rfl, rfl, fun k hk => absurd hk (Nat.not_lt_zero k)⟩
  | layer :: rest, n, h => by
    have h0 : (incr.lookup n).isSome := by
      have := h 0 (Nat.succ_pos _)
      rwa [Nat.add_zero] at this
    obtain ⟨s0, hs0⟩ := Option.isSome_iff_exists.mp h0
    obtain ⟨d, hd, hkeys, hget⟩ :=
      reorderIncrGo_spec incr inds rest (n + 1) (fun k hk => by
        have := h (k + 1) (Nat.succ_lt_succ hk)
        rwa [show n + (k + 1) = n + 1 + k by omega] at this)
    refine ⟨(n, layer.reorder_incremental_state s0 inds) :: d, ?_, ?_, ?_⟩
    · unfold reorderIncrGo
      rw [hs0, hd]
      rfl
    · simp only [List.map_cons, hkeys, List.length_cons, List.range'_succ]
    · intro k hk s hs
      match k with
      | 0 =>
        rw [Nat.add_zero] at hs
        rw [hs0] at hs
        cases hs
        rw [Nat.add_zero]
        simp [List.lookup_cons]
      | Nat.succ k' =>
        have hne : (n + (k' + 1) == n) = false := by
          simp [Nat.add_comm n (k' + 1)]
        have hs' : incr.lookup (n + 1 + k') = some s := by
          rwa [show n + (k' + 1) = n + 1 + k' by omega] at hs
        have hres := hget k' (Nat.lt_of_succ_lt_succ hk) s hs'
        rw [List.lookup_cons]
        simp only [hne]
        rw [show n + (k' + 1) = n + 1 + k' by omega]
        exact hres

/-- C4: when the incremental-state dict has an entry for every decoder layer
index, `reorder_decoder_incremental_state` returns a dict that maps each layer
index `k` to `layers[k].reorder_incremental_state(incremental_state[k], inds)`:
the reordering is delegated to each layer's own reorder operation. -/
theorem reorder_decoder_incremental_state_delegates {S I : Type}
    (layers : List (DecoderLayer S I)) (incr : List (Nat × S)) (inds : I)
    (h : ∀ k, k < layers.length → (incr.lookup k).isSome) :
    ∃ d, reorder_decoder_incremental_state layers incr inds = some d ∧
      d.length = layers.length ∧
      ∀ k (hk : k < layers.length) s, incr.lookup k = some s →
        d.lookup k =
          some ((layers.get ⟨k, hk⟩).reorder_incremental_state s inds) := by
  obtain ⟨d, hd, hkeys, hget⟩ :=
    reorderIncrGo_spec incr inds layers 0 (fun k hk => by
      simpa using h k hk)
  refine ⟨d, hd, ?_, fun k hk s hs => ?_⟩
  · have := congrArg List.length hkeys
    simpa using this
  · have := hget k hk s (by simpa using hs)
    simpa using this

/-- C4 witness: two layers (addition and multiplication on a `Nat` state),
a complete incremental-state dict, and `inds = 3`. -/
theorem reorder_decoder_incremental_state_delegates_witness :
    ∃ d, reorder_decoder_incremental_state layersC [(0, 5), (1, 7)] 3 =
        some d ∧
      d.length = layersC.length ∧
      ∀ k (hk : k < layersC.length) s,
        List.lookup k [(0, 5), (1, 7)] = some s →
          d.lookup k =
            some ((layersC.get ⟨k, hk⟩).reorder_incremental_state s 3) :=
  reorder_decoder_incremental_state_delegates layersC [(0, 5), (1, 7)] 3
    (by decide)

/-- Any successful run of the comprehension starting at `n` has key list
exactly `range' n layers.length`, whatever the input dict contains. -/
theorem reorderIncrGo_keys {S I : Type} (incr : List (Nat × S)) (inds : I) :
    ∀ (layers : List (DecoderLayer S I)) (n : Nat) (d : List (Nat × S)),
      reorderIncrGo incr inds n layers = some d →
      d.map Prod.fst = List.range' n layers.length
  | [], _, _, hd => by
    cases hd
    rfl
  | layer :: rest, n, d, hd => by
    unfold reorderIncrGo at hd
    cases hl : incr.lookup n with
    | none => rw [hl] at hd; cases hd
    | some s =>
      rw [hl] at hd
      obtain ⟨d', hd', rfl⟩ := Option.map_eq_some'.mp hd
      have := reorderIncrGo_keys incr inds rest (n + 1) d' hd'
      simp only [List.map_cons, this, List.length_cons, List.range'_succ]

/-- If any key in `n .. n + layers.length - 1` is missing from the input dict,
the comprehension starting at `n` raises (`none`). -/
theorem reorderIncrGo_missing {S I : Type} (incr : List (Nat × S)) (inds : I) :
    ∀ (layers : List (DecoderLayer S I)) (n k : Nat), k < layers.length →
      incr.lookup (n + k) = none → reorderIncrGo incr inds n layers = none
  | [], _, k, hk, _ => absurd hk (Nat.not_lt_zero k)
  | layer :: rest, n, 0, _, hmiss => by
    rw [Nat.add_zero] at hmiss
    unfold reorderIncrGo
    rw [hmiss]
  | layer :: rest, n, k + 1, hk, hmiss => by
    unfold reorderIncrGo
    cases hl : incr.lookup n with
    | none => rfl
    | some s =>
      have hmiss' : incr.lookup (n + 1 + k) = none := by
        rwa [show n + (k + 1) = n + 1 + k by omega] at hmiss
      rw [reorderIncrGo_missing incr inds rest (n + 1) k
        (Nat.lt_of_succ_lt_succ hk) hmiss']
      rfl

/-- Keys absent from an association list do not resolve. -/
theorem lookup_eq_none_of_not_mem_keys {S : Type} :
    ∀ (d : List (Nat × S)) (k : Nat), k ∉ d.map Prod.fst →
      d.lookup k = none
  | [], _, _ => rfl
  | (a, b) :: rest, k, hk => by
    have hka : k ≠ a := fun h =>
      hk (by rw [h]; exact List.mem_cons_self a _)
    rw [List.lookup_cons]
    have : (k == a) = false := beq_false_of_ne hka
    simp only [this]
    exact lookup_eq_none_of_not_mem_keys rest k
      (fun h => hk (List.mem_cons_of_mem _ h))

/-- C8: for every input dict, a successful
`reorder_decoder_incremental_state` has key list exactly
`range L` (`L` = number of decoder layers) — in particular every input entry
with a key outside `0 .. L-1` is dropped — and if some layer index in that
range is missing from the input the whole call raises a lookup error (`none`)
instead of returning a partial dict. -/
theorem reorder_decoder_incremental_state_keys {S I : Type}
    (layers : List (DecoderLayer S I)) (incr : List (Nat × S)) (inds : I) :
    (∀ d, reorder_decoder_incremental_state layers incr inds = some d →
      d.map Prod.fst = List.range layers.length ∧
      ∀ k, layers.length ≤ k → d.lookup k = none) ∧
    (∀ k, k < layers.length → incr.lookup k = none →
      reorder_decoder_incremental_state layers incr inds = none) := by
  constructor
  · intro d hd
    have hkeys := reorderIncrGo_keys incr inds layers 0 d hd
    rw [← List.range_eq_range'] at hkeys
    refine ⟨hkeys, fun k hk => ?_⟩
    apply lookup_eq_none_of_not_mem_keys
    rw [hkeys, List.mem_range]
    omega
  · intro k hk hmiss
    exact reorderIncrGo_missing incr inds layers 0 k hk
      (by rwa [Nat.zero_add])

/-- C8 witness: with two layers but an input dict holding only key 0 (and a
stray key 5), the call raises instead of returning a partial dict; with the
complete dict `[(0, 5), (1, 7), (5, 9)]` the result's keys are exactly
`[0, 1]` and the stray key 5 is dropped. -/
theorem reorder_decoder_incremental_state_keys_witness :
    reorder_decoder_incremental_state layersC [(0, 5), (5, 9)] 3 = none ∧
    [(0, 8), (1, 21)].map Prod.fst = List.range layersC.length ∧
    List.lookup 5 [(0, 8), (1, 21)] = none :=
  ⟨(reorder_decoder_incremental_state_keys layersC [(0, 5), (5, 9)] 3).2 1
      (by decide) (by decide),
    ((reorder_decoder_incremental_state_keys layersC
      [(0, 5), (1, 7), (5, 9)] 3).1 [(0, 8), (1, 21)] rfl).1,
    ((reorder_decoder_incremental_state_keys layersC
      [(0, 5), (1, 7), (5, 9)] 3).1 [(0, 8), (1, 21)] rfl).2 5 (by decide)⟩

/-! ### C9: the methods do not mutate their argument tensors -/

/-- Allocation preserves the contents of every existing reference. -/
theorem Store.read_alloc_of_lt {α : Type} (st : Store α) (v : α) (r : Nat)
    (h : r < st.mem.length) : (st.alloc v).1.read r = st.read r := by
  unfold Store.alloc Store.read
  exact List.get?_append h

/-- Reading the freshly allocated reference yields the allocated object. -/
theorem Store.read_alloc_self {α : Type} (st : Store α) (v : α) :
    (st.alloc v).1.read (st.alloc v).2 = some v := by
  unfold Store.alloc Store.read
  exact List.get?_concat_length st.mem v

/-- Writing one reference leaves every other reference unchanged. -/
theorem Store.read_write_ne {α : Type} (st : Store α) (r r' : Nat) (v : α)
    (h : r' ≠ r) : (st.write r' v).read r = st.read r := by
  unfold Store.write Store.read
  exact List.get?_set_ne v st.mem h

/-- A readable reference is within the store. -/
theorem Store.lt_length_of_read_eq_some {α : Type} (st : Store α) (r : Nat)
    (v : α) (h : st.read r = some v) : r < st.mem.length :=
  (List.get?_eq_some.mp h).1

/-- `index_select0_st` decomposed: it reads the source tensor, selects, and
allocates the selection as a fresh object. -/
theorem index_select0_st_spec {ρ : Type} (st : Store (List ρ)) (tRef : Nat)
    (inds : List Nat) (st2 : Store (List ρ)) (r2 : Nat)
    (h : index_select0_st st tRef inds = some (st2, r2)) :
    ∃ t sel, st.read tRef = some t ∧ index_select0 t inds = some sel ∧
      st2 = (st.alloc sel).1 ∧ r2 = (st.alloc sel).2 := by
  unfold index_select0_st at h
  split at h
  next => cases h
  next t ht =>
    split at h
    next => cases h
    next sel hsel =>
      simp only [Option.some.injEq] at h
      exact ⟨t, sel, ht, hsel, by rw [h], by rw [h]⟩

/-- C9: neither method mutates its arguments.  For `output` against the store,
the argument tensor's object is unchanged, the returned reference is a fresh
one, and the start-column masking lands only on that fresh `F.linear`
projection.  For `reorder_encoder_states` against the store, the objects behind
the `enc` and `mask` references are unchanged and the returned references are
freshly allocated selections. -/
theorem methods_do_not_mutate_arguments :
    (∀ (st : Store TensorObj) (W : Mat) (s tensorRef : Nat)
        (st2 : Store TensorObj) (r2 : Nat),
      output_st st W s tensorRef = some (st2, r2) →
        st2.read tensorRef = st.read tensorRef ∧ r2 ≠ tensorRef ∧
        ∀ t, st.read tensorRef = some (TensorObj.q t) →
          st2.read r2 = some (TensorObj.w (maskStart (toW3 (Flinear t W)) s))) ∧
    (∀ (ρ : Type) (st : Store (List ρ)) (encRef maskRef : Nat)
        (indices : IndicesArg) (st2 : Store (List ρ)) (e2 m2 : Nat),
      (st.read maskRef).isSome →
      reorder_encoder_states_st st encRef maskRef indices =
          some (st2, e2, m2) →
        st2.read encRef = st.read encRef ∧
        st2.read maskRef = st.read maskRef ∧ e2 ≠ encRef ∧ e2 ≠ maskRef) := by
  constructor
  · intro st W s tensorRef st2 r2 h
    unfold output_st at h
    split at h
    next t ht =>
      simp only [Store.read_alloc_self] at h
      have htlt : tensorRef < st.mem.length :=
        Store.lt_length_of_read_eq_some st tensorRef _ ht
      split at h
      · simp only [Option.some.injEq, Prod.mk.injEq] at h
        obtain ⟨hst2, hr2⟩ := h
        subst hst2
        subst hr2
        have hne : (st.alloc (TensorObj.w (toW3 (Flinear t W)))).2 ≠
            tensorRef := by
          unfold Store.alloc
          omega
        refine ⟨?_, hne, ?_⟩
        · rw [Store.read_write_ne _ _ _ _ hne,
            Store.read_alloc_of_lt _ _ _ htlt]
        · intro t' ht'
          rw [ht] at ht'
          cases ht'
          unfold Store.alloc Store.write Store.read
          exact List.get?_set_eq_of_lt _ (by simp)
      · cases h
    next hnq => cases h
  · intro ρ st encRef maskRef indices st2 e2 m2 hmval h
    simp only [reorder_encoder_states_st] at h
    split at h
    next => cases h
    next st1 r1 h1 =>
      split at h
      next => cases h
      next st2' r2' h2 =>
        simp only [Option.some.injEq, Prod.mk.injEq] at h
        obtain ⟨hst2, he2, hm2⟩ := h
        subst hst2
        subst he2
        subst hm2
        obtain ⟨tE, selE, htE, -, hst1, hr1⟩ :=
          index_select0_st_spec st encRef indices.asTensor st1 r1 h1
        obtain ⟨tM, selM, htM, -, hst2', hr2'⟩ :=
          index_select0_st_spec st1 maskRef indices.asTensor st2' r2' h2
        have hElt : encRef < st.mem.length :=
          Store.lt_length_of_read_eq_some st encRef _ htE
        obtain ⟨mv, hmv⟩ := Option.isSome_iff_exists.mp hmval
        have hMlt : maskRef < st.mem.length :=
          Store.lt_length_of_read_eq_some st maskRef _ hmv
        have hlen1 : st1.mem.length = st.mem.length + 1 := by
          rw [hst1]
          unfold Store.alloc
          simp
        subst hst1
        subst hst2'
        subst hr1
        refine ⟨?_, ?_, ?_, ?_⟩
        · rw [Store.read_alloc_of_lt _ _ _ (by omega),
            Store.read_alloc_of_lt _ _ _ hElt]
        · rw [Store.read_alloc_of_lt _ _ _ (by omega),
            Store.read_alloc_of_lt _ _ _ hMlt]
        · unfold Store.alloc
          omega
        · unfold Store.alloc
          omega

/-- C9 witness: a one-tensor store for `output` and a two-tensor store for
`reorder_encoder_states`; in both cases the argument objects read back
unchanged and the results are fresh references. -/
theorem methods_do_not_mutate_arguments_witness :
    (∃ st2 r2,
      output_st ⟨[TensorObj.q [[[1]]]]⟩ [[2]] 0 0 = some (st2, r2) ∧
        st2.read 0 = Store.read ⟨[TensorObj.q [[[1]]]]⟩ 0 ∧ r2 ≠ 0) ∧
    (∃ st2 e2 m2,
      reorder_encoder_states_st (⟨[[(1 : ℚ), 2], [3]]⟩ : Store (List ℚ)) 0 1
          (IndicesArg.tensor [0, 0]) = some (st2, e2, m2) ∧
        st2.read 0 = Store.read (⟨[[(1 : ℚ), 2], [3]]⟩ : Store (List ℚ)) 0 ∧
        st2.read 1 = Store.read (⟨[[(1 : ℚ), 2], [3]]⟩ : Store (List ℚ)) 1) := by
  constructor
  · have h := methods_do_not_mutate_arguments.1 ⟨[TensorObj.q [[[1]]]]⟩
      [[2]] 0 0 _ _ rfl
    exact ⟨_, _, rfl, h.1, h.2.1⟩
  · have h := methods_do_not_mutate_arguments.2 ℚ ⟨[[(1 : ℚ), 2], [3]]⟩ 0 1
      (IndicesArg.tensor [0, 0]) _ _ _ (by decide) rfl
    exact ⟨_, _, _, rfl, h.1, h.2.1⟩

end ParlAIGen
